import Mathlib

/-
Verification of the LOCO wire-protocol engine (packet codec, packet
interceptor, hook pipeline) against its design specification.

Shallow embedding conventions:
* A Node.js `Buffer` is a `List Nat` of byte values (each < 256 where produced
  by the code itself; reads are modelled totally with `List.getD _ _ 0`, which
  agrees with the source on every in-bounds access the code performs).
* Fallible operations (`encode` throwing on caller-contract violations,
  `decode` returning `null`) are `Option`-valued; `none` models both `null`
  and a thrown error, as noted at each definition.
* Wall-clock timestamps (`Date.now()`) and the best-effort BSON decode of the
  body (`data` field) are outside the verified surface: the former is ambient
  real time, the latter is an external library whose failure is swallowed by
  the source and never affects any other field.
-/

set_option maxRecDepth 100000

/-- Direction tag of an intercepted packet: `'send' | 'recv'`. -/
inductive Direction where
  | send
  | recv
deriving DecidableEq, Repr

/-- Hex digit for a nibble, uppercase (matches `toString('hex').toUpperCase()`). -/
def hexDigitChar (n : Nat) : Char :=
  if n < 10 then Char.ofNat (48 + n) else Char.ofNat (55 + n)

/-- Modelled from the spec: `SecurityManager.generateSignature` (its
implementation is not under `src/`; only callers are). The spec says it is "a
keyed message-authentication code over the hex-encoded byte range being
protected, using a secret provisioned as an external configuration value".
Modelled as a concrete keyed rolling hash rendered as a 16-hex-digit string,
standing in for the HMAC: keyed by the secret, deterministic, and
distinguishing the concrete inputs the claims examine. -/
def SecurityManager.generateSignature (data : String) (secret : String) : String :=
  let h := (secret ++ "|" ++ data).toList.foldl
    (fun acc c => (acc * 131 + c.toNat + 7) % 18446744073709551616) 5381
  String.mk ((List.range 16).map (fun i => hexDigitChar (h / 16 ^ (15 - i) % 16)))

/-- Modelled from the spec: `SecurityManager.verifySignature` "recomputes the
MAC over the [protected data] and compares against the supplied signature
using the constant-time comparator". The constant-time comparison has the
same result as equality. -/
def SecurityManager.verifySignature (data : String) (signature : String) (secret : String) : Bool :=
  SecurityManager.generateSignature data secret == signature

/-- BinaryUtils.bufferToHex: `buffer.toString('hex').toUpperCase()`. -/
def BinaryUtils.bufferToHex (buffer : List Nat) : String :=
  String.mk (buffer.foldr (fun b acc => hexDigitChar (b / 16 % 16) :: hexDigitChar (b % 16) :: acc) [])

/-- BinaryUtils.safeSlice: clamps `end` to `buffer.length` (and `start` to
`[0, buffer.length]`; the `Math.max(0, _)` is a no-op for `Nat` indices, which
cover every call site in the engine). `buffer.slice(s, e)` is the half-open
byte range `[s, e)`, empty when `s ≥ e`. -/
def BinaryUtils.safeSlice (buffer : List Nat) (start : Nat) (stop : Option Nat) : List Nat :=
  let actualEnd := match stop with
    | some e => min e buffer.length
    | none => buffer.length
  let actualStart := min start buffer.length
  (buffer.take actualEnd).drop actualStart

/-- LOCO_PROTOCOL.HEADER_SIZE. -/
def LOCO_PROTOCOL.HEADER_SIZE : Nat := 22

/-- 22-byte header: PacketID (4) + Status (2) + Method (11) + Type (1) + BodyLen (4). -/
structure LOCOPacketHeader where
  packetId : Nat
  statusCode : Int
  method : String
  type : Nat
  bodyLength : Nat
deriving DecidableEq, Repr

/-- Decoded LOCO packet. The source also carries a capture timestamp
(`Date.now()`) and a best-effort BSON `data` field; both are outside the
verified surface (see the module comment) and never influence the fields
below. -/
structure LOCOPacket where
  header : LOCOPacketHeader
  body : List Nat
  signature : Option String
deriving DecidableEq, Repr

/-- LOCOPacketCodec.MAX_BODY_SIZE = 15 * 1024 * 1024. -/
def LOCOPacketCodec.MAX_BODY_SIZE : Nat := 15 * 1024 * 1024

/-- LOCOPacketCodec.MIN_BODY_SIZE = 0. -/
def LOCOPacketCodec.MIN_BODY_SIZE : Nat := 0

/-- LOCOPacketCodec.SIGNATURE_SECRET (the `process.env` default). -/
def LOCOPacketCodec.SIGNATURE_SECRET : String := "default-secret-change-me"

/-- buffer.readUInt32LE(off): little-endian 32-bit read. -/
def readUInt32LE (b : List Nat) (off : Nat) : Nat :=
  b.getD off 0 + 256 * b.getD (off + 1) 0 + 65536 * b.getD (off + 2) 0 +
    16777216 * b.getD (off + 3) 0

/-- buffer.readInt16LE(off): little-endian signed 16-bit read (two's complement). -/
def readInt16LE (b : List Nat) (off : Nat) : Int :=
  let u := b.getD off 0 + 256 * b.getD (off + 1) 0
  if u < 32768 then (u : Int) else (u : Int) - 65536

/-- buffer.readUInt8(off). -/
def readUInt8 (b : List Nat) (off : Nat) : Nat :=
  b.getD off 0

/-- buffer.writeUInt32LE: the four little-endian bytes of `v` (the source's
`writeUInt32LE` validates `v < 2^32`; `encode` models the violation as `none`). -/
def writeUInt32LE (v : Nat) : List Nat :=
  [v % 256, v / 256 % 256, v / 65536 % 256, v / 16777216 % 256]

/-- buffer.writeInt16LE: the two little-endian two's-complement bytes of `v`. -/
def writeInt16LE (v : Int) : List Nat :=
  let u := (v % 65536).toNat
  [u % 256, u / 256 % 256]

/-- A byte admissible in a method name: `[A-Z_]`. -/
def isMethodByte (b : Nat) : Bool :=
  (65 ≤ b && b ≤ 90) || b == 95

/-- A character admissible in a method name. -/
def isMethodChar (c : Char) : Bool :=
  isMethodByte c.toNat

/-- The regex `/^[A-Z_]+$/` on a string: non-empty and every char in `[A-Z_]`. -/
def methodStringValid (s : String) : Bool :=
  !s.toList.isEmpty && s.toList.all isMethodChar

/-- The 11 raw bytes of the method field of `buffer`, with every NUL byte
removed. The source decodes bytes 6..17 as UTF-8 and applies
`.replace(/\0/g, '')`, removing all NULs (not only trailing ones); on the
byte level the charset test `/^[A-Z_]+$/` passes iff every non-NUL byte is in
`[A-Z_]` and at least one such byte exists (multi-byte or invalid UTF-8
sequences decode to non-ASCII or replacement characters, which fail the
charset test exactly as their bytes do here). -/
def methodBytes (buffer : List Nat) : List Nat :=
  ((buffer.drop 6).take 11).filter (fun b => b != 0)

/-- The `/^[A-Z_]+$/` test on the NUL-stripped method bytes. -/
def methodBytesOK (l : List Nat) : Bool :=
  !l.isEmpty && l.all isMethodByte

/-- LOCOPacketCodec.generateSignature: MAC over the hex rendering of `data`. -/
def LOCOPacketCodec.generateSignature (data : List Nat) : String :=
  SecurityManager.generateSignature (BinaryUtils.bufferToHex data) LOCOPacketCodec.SIGNATURE_SECRET

/-- The 11-byte, NUL-padded method field written by `encode`
(`Buffer.alloc(11, 0)` then `methodBuf.write(header.method)`, truncating at 11
bytes; `encode` has already checked the method against `/^[A-Z_]+$/`, so every
character is single-byte ASCII). -/
def methodFieldBytes (method : String) : List Nat :=
  let mb := (method.toList.map Char.toNat).take 11
  mb ++ List.replicate (11 - mb.length) 0

/-- LOCOPacketCodec.encode. `none` models a thrown error: the source throws on
an oversized body or an invalid method name, and the checked buffer writes
(`writeUInt32LE` / `writeInt16LE` / `writeUInt8`) throw when a numeric header
field is outside its wire range. When `signPacket` is set the source computes
a signature for logging only; the returned bytes are identical either way. -/
def LOCOPacketCodec.encode (header : LOCOPacketHeader) (body : List Nat)
    (signPacket : Bool) : Option (List Nat) :=
  if LOCOPacketCodec.MAX_BODY_SIZE < body.length then none
  else if !(methodStringValid header.method) then none
  else if 4294967296 ≤ header.packetId ∨ header.statusCode < -32768 ∨
      32768 ≤ header.statusCode ∨ 256 ≤ header.type then none
  else
    some (writeUInt32LE header.packetId ++ (writeInt16LE header.statusCode ++
      (methodFieldBytes header.method ++ (header.type ::
        (writeUInt32LE body.length ++ body)))))

/-- LOCOPacketCodec.decode: `none` is the source's `null` (undersized buffer,
out-of-range declared body length, or invalid method charset; the source's
`try/catch` converts any other internal fault to `null` as well, and the model
is total). The checks run in source order: size, body length, method. -/
def LOCOPacketCodec.decode (buffer : List Nat) (verifySignature : Bool) : Option LOCOPacket :=
  if buffer.length < LOCO_PROTOCOL.HEADER_SIZE then none
  else
    let packetId := readUInt32LE buffer 0
    let statusCode := readInt16LE buffer 4
    let mbytes := methodBytes buffer
    let type := readUInt8 buffer 17
    let bodyLength := readUInt32LE buffer 18
    if bodyLength < LOCOPacketCodec.MIN_BODY_SIZE ∨ LOCOPacketCodec.MAX_BODY_SIZE < bodyLength then none
    else if !(methodBytesOK mbytes) then none
    else
      let method := String.mk (mbytes.map Char.ofNat)
      let body := BinaryUtils.safeSlice buffer LOCO_PROTOCOL.HEADER_SIZE
        (some (LOCO_PROTOCOL.HEADER_SIZE + bodyLength))
      let signature :=
        if verifySignature then
          some (LOCOPacketCodec.generateSignature
            (buffer.take (LOCO_PROTOCOL.HEADER_SIZE + bodyLength)))
        else none
      some { header := { packetId, statusCode, method, type, bodyLength },
             body := body, signature := signature }

/-- LOCOPacketCodec.verifyPacketSignature: `false` when the packet carries no
signature; otherwise recomputes the MAC over the hex rendering of the packet
BODY only and compares it with the supplied signature. -/
def LOCOPacketCodec.verifyPacketSignature (packet : LOCOPacket) (signature : String) : Bool :=
  match packet.signature with
  | none => false
  | some _ =>
      SecurityManager.verifySignature (BinaryUtils.bufferToHex packet.body)
        signature LOCOPacketCodec.SIGNATURE_SECRET

/-- An entry of the interceptor's retained history (the source additionally
records a wall-clock timestamp, outside the verified surface). -/
structure InterceptedPacket where
  direction : Direction
  raw : List Nat
  parsed : Option LOCOPacket
  verified : Bool
deriving DecidableEq, Repr

/-- The mutable state of a `PacketInterceptor`. -/
structure PacketInterceptor where
  packets : List InterceptedPacket
  maxPackets : Nat
  errorCount : Nat
  tamperedCount : Nat
  verifySignatures : Bool
deriving DecidableEq, Repr

/-- PacketInterceptor constructor: `maxPackets` defaults to 5000 and is
overridden only by a truthy argument (`if (maxPackets) ...`), so an explicit
`0` keeps the default; `verifySignatures` is overridden whenever the argument
is present (`!== undefined`) and defaults to `false`. `none` models an omitted
argument. -/
def PacketInterceptor.mk' (maxPackets : Option Nat) (verifySignatures : Option Bool) :
    PacketInterceptor :=
  { packets := []
    maxPackets := match maxPackets with
      | some m => if m ≠ 0 then m else 5000
      | none => 5000
    errorCount := 0
    tamperedCount := 0
    verifySignatures := verifySignatures.getD false }

/-- The history entry `intercept` builds for a non-empty buffer: decode, then
(when verification is enabled and the decoded packet carries a signature) run
`verifyPacketSignature`; `verified` stays `true` in every other case. Depends
only on the interceptor's `verifySignatures` flag, never on its history. -/
def interceptPacket (verifySignatures : Bool) (buffer : List Nat) (direction : Direction) :
    InterceptedPacket :=
  let parsed := LOCOPacketCodec.decode buffer verifySignatures
  let verified : Bool :=
    if verifySignatures then
      match parsed with
      | some p =>
          match p.signature with
          | some s => LOCOPacketCodec.verifyPacketSignature p s
          | none => true
      | none => true
    else true
  { direction := direction, raw := buffer, parsed := parsed, verified := verified }

/-- PacketInterceptor.intercept. Returns the new state together with the list
of `(eventName, payload)` pairs emitted, in order. An empty buffer is rejected
up front (`errorCount++`, no storage, no events). Otherwise the entry is
pushed, the oldest entry is shifted off when the cap is exceeded, a `packet`
event fires, and — only for a successfully decoded packet — an event named by
the resolved method fires; a decode failure bumps `errorCount`, and a failed
verification bumps `tamperedCount` (in the source the bump happens inside the
verification branch, the only place `verified` can become `false`). The
source's outer `try/catch` (an `error` event) is unreachable in this total
model. -/
def PacketInterceptor.intercept (st : PacketInterceptor) (buffer : List Nat)
    (direction : Direction) : PacketInterceptor × List (String × InterceptedPacket) :=
  if buffer.length = 0 then
    ({ st with errorCount := st.errorCount + 1 }, [])
  else
    let packet := interceptPacket st.verifySignatures buffer direction
    let pushed := st.packets ++ [packet]
    let packets := if st.maxPackets < pushed.length then pushed.tail else pushed
    let errorCount := if packet.parsed.isSome then st.errorCount else st.errorCount + 1
    let tamperedCount := if packet.verified then st.tamperedCount else st.tamperedCount + 1
    let events := ("packet", packet) ::
      (match packet.parsed with
       | some p => [(p.header.method, packet)]
       | none => [])
    ({ st with packets := packets, errorCount := errorCount, tamperedCount := tamperedCount },
     events)

/-- Statistics as reported by `getStats` (association lists play the role of
the JS record objects; `avgPacketSize` is `Math.round(totalBytes / total)`). -/
structure PacketStatistics where
  total : Nat
  sendCount : Nat
  recvCount : Nat
  byMethod : List (String × Nat)
  byStatus : List (Int × Nat)
  totalBytes : Nat
  avgPacketSize : Nat
  errors : Nat
  tamperedPackets : Nat
deriving DecidableEq, Repr

/-- `m[k] = (m[k] || 0) + 1` on an association list. -/
def bumpCount {α : Type} [DecidableEq α] : List (α × Nat) → α → List (α × Nat)
  | [], k => [(k, 1)]
  | (k', v) :: rest, k => if k' = k then (k', v + 1) :: rest else (k', v) :: bumpCount rest k

/-- One step of the `forEach` accumulation in `getStats`. -/
def statsStep (acc : PacketStatistics) (p : InterceptedPacket) : PacketStatistics :=
  let acc :=
    { acc with
      sendCount := if p.direction = Direction.send then acc.sendCount + 1 else acc.sendCount
      recvCount := if p.direction = Direction.recv then acc.recvCount + 1 else acc.recvCount
      totalBytes := acc.totalBytes + p.raw.length }
  match p.parsed with
  | some q =>
      { acc with byMethod := bumpCount acc.byMethod q.header.method
                 byStatus := bumpCount acc.byStatus q.header.statusCode }
  | none => acc

/-- PacketInterceptor.getStats: `total` is the RETAINED history length,
`byDirection`/`byMethod`/`byStatus`/`totalBytes` are recomputed from the
retained history, while `errors` and `tamperedPackets` report the persistent
counters. -/
def PacketInterceptor.getStats (st : PacketInterceptor) : PacketStatistics :=
  let base : PacketStatistics :=
    { total := st.packets.length, sendCount := 0, recvCount := 0, byMethod := [],
      byStatus := [], totalBytes := 0, avgPacketSize := 0,
      errors := st.errorCount, tamperedPackets := st.tamperedCount }
  let s := st.packets.foldl statsStep base
  { s with avgPacketSize := if 0 < s.total then (2 * s.totalBytes + s.total) / (2 * s.total) else 0 }

/-- PacketInterceptor.clear: empties the history and resets both counters. -/
def PacketInterceptor.clear (st : PacketInterceptor) : PacketInterceptor :=
  { st with packets := [], errorCount := 0, tamperedCount := 0 }

/-- Folds a sequence of `(buffer, direction)` inputs through `intercept`,
keeping the state. -/
def PacketInterceptor.runAll (st : PacketInterceptor)
    (inputs : List (List Nat × Direction)) : PacketInterceptor :=
  inputs.foldl (fun s bd => (s.intercept bd.1 bd.2).1) st

/-- Result of one hook callback: a replacement packet, a `void` return
(`undefined`, falsy, so "no change"), or a raised exception. -/
inductive HookResult where
  | replace (packet : LOCOPacket)
  | voidReturn
  | raised
deriving Repr

/-- A hook callback `(packet, direction) => LOCOPacket | void`, with `raised`
modelling a callback that throws. -/
abbrev HookCallback : Type := LOCOPacket → Direction → HookResult

/-- ProtocolHookManager state: per-method hook lists (a `Map`, modelled as an
association list with unique keys) plus the global hook list, each in
registration order. -/
structure ProtocolHookManager where
  hooks : List (String × List HookCallback)
  globalHooks : List HookCallback

/-- `Map.get`: first (unique) matching key. -/
def lookupHooks : List (String × List HookCallback) → String → Option (List HookCallback)
  | [], _ => none
  | (k, v) :: rest, m => if k = m then some v else lookupHooks rest m

/-- Appends a callback to a method's list, creating the entry if absent
(`if (!hooks.has(method)) hooks.set(method, []); hooks.get(method).push(cb)`). -/
def insertHook : List (String × List HookCallback) → String → HookCallback →
    List (String × List HookCallback)
  | [], m, cb => [(m, [cb])]
  | (k, v) :: rest, m, cb =>
      if k = m then (k, v ++ [cb]) :: rest else (k, v) :: insertHook rest m cb

/-- ProtocolHookManager.registerMethodHook: throws (`none`) on an invalid
method name, else appends the callback in registration order. -/
def ProtocolHookManager.registerMethodHook (hm : ProtocolHookManager) (method : String)
    (cb : HookCallback) : Option ProtocolHookManager :=
  if !(methodStringValid method) then none
  else some { hm with hooks := insertHook hm.hooks method cb }

/-- ProtocolHookManager.registerGlobalHook. -/
def ProtocolHookManager.registerGlobalHook (hm : ProtocolHookManager) (cb : HookCallback) :
    ProtocolHookManager :=
  { hm with globalHooks := hm.globalHooks ++ [cb] }

/-- One step of the trigger pipeline: `result = cb(current, direction)`;
a truthy result replaces the current packet, a `void` return leaves it
unchanged, and a raised exception is caught, logged and skipped, so the
pipeline continues with the last good packet. -/
def applyHook (direction : Direction) (packet : LOCOPacket) (cb : HookCallback) : LOCOPacket :=
  match cb packet direction with
  | HookResult.replace q => q
  | HookResult.voidReturn => packet
  | HookResult.raised => packet

/-- ProtocolHookManager.trigger: all global hooks in registration order, then
all hooks registered for the ORIGINAL packet's `header.method`, threading the
current packet through. Total — no callback fault escapes. -/
def ProtocolHookManager.trigger (hm : ProtocolHookManager) (packet : LOCOPacket)
    (direction : Direction) : LOCOPacket :=
  let afterGlobal := hm.globalHooks.foldl (applyHook direction) packet
  match lookupHooks hm.hooks packet.header.method with
  | some methodHooks => methodHooks.foldl (applyHook direction) afterGlobal
  | none => afterGlobal

/-- Chain semantics in the words of the specification: run the callbacks of
`cbs` left to right, threading the current (possibly replaced) packet, a void
return meaning "no change" and a raising callback being skipped. Used to state
the refinement claim about `trigger`. -/
def runChain (direction : Direction) (cbs : List HookCallback) (packet : LOCOPacket) : LOCOPacket :=
  cbs.foldl (applyHook direction) packet

/-- A minimal well-formed signed frame: packetId 1, status 0, method "MSG",
type 0, bodyLength 0, no body bytes. -/
def c1buf : List Nat :=
  [1, 0, 0, 0, 0, 0, 77, 83, 71, 0, 0, 0, 0, 0, 0, 0, 0, 0, 0, 0, 0, 0]

/-- The signature `decode` attaches to `c1buf` (MAC over the header+body
bytes — for this empty-body frame, the whole 22-byte buffer). -/
def c1sig : String := LOCOPacketCodec.generateSignature c1buf

/-- The packet `decode` produces for `c1buf` with signature capture on. -/
def c1packet : LOCOPacket :=
  { header := { packetId := 1, statusCode := 0, method := "MSG", type := 0, bodyLength := 0 },
    body := [], signature := some c1sig }

/-- Header whose declared `bodyLength` (5) disagrees with the attached body
(empty). -/
def c2h : LOCOPacketHeader :=
  { packetId := 0, statusCode := 0, method := "MSG", type := 0, bodyLength := 5 }

/-- Trailing-NUL stripping, as the claim's wording prescribes (the source in
fact strips ALL NULs via `.replace(/\0/g, '')`). Used only to state the C3
counterexample. -/
def stripTrailingNulls (l : List Nat) : List Nat :=
  (l.reverse.dropWhile (fun b => b == 0)).reverse

/-- A 22-byte frame whose method field holds "A\0B" followed by NUL padding:
after stripping only TRAILING NULs the method still contains an interior NUL
and fails `[A-Z_]+`, but the source strips every NUL and accepts it as "AB". -/
def c3buf : List Nat :=
  [0, 0, 0, 0, 0, 0, 65, 0, 66, 0, 0, 0, 0, 0, 0, 0, 0, 0, 0, 0, 0, 0]

/-- A 23-byte frame declaring `bodyLength = 5` with only one body byte
available. -/
def c4buf : List Nat :=
  [1, 0, 0, 0, 0, 0, 77, 83, 71, 0, 0, 0, 0, 0, 0, 0, 0, 0, 5, 0, 0, 0, 9]

/-- The last `n` entries of a list. -/
def lastN {α : Type} (n : Nat) (l : List α) : List α :=
  l.drop (l.length - n)

/-- C1: REFUTED — code bug. When signature capture is requested, `decode`
attaches the MAC computed over the header+body bytes
(`generateSignature(buffer.slice(0, HEADER_SIZE + bodyLength))`), but
`verifyPacketSignature` recomputes the MAC over the BODY bytes only
(`packet.body.toString('hex')`). The two protected ranges differ for every
frame (the 22-byte header is always present), so verifying the unmodified
packet against its own attached signature returns `false`, shown here on the
concrete well-formed frame `c1buf`: a signature is attached, yet verification
fails. The claim's first half ("returns true on the unmodified packet") is
therefore false before any byte flipping is considered. -/
theorem c1_verify_rejects_own_capture_signature :
    (LOCOPacketCodec.decode c1buf true).map (fun p => p.signature.isSome) = some true ∧
    (LOCOPacketCodec.decode c1buf true).map
      (fun p => LOCOPacketCodec.verifyPacketSignature p (p.signature.getD "")) = some false :=
  ⟨by decide, by decide⟩

/-- C10: CONFIRMED. A constructor argument `maxPackets = 0` is falsy, so the
history cap silently stays at the default 5000; any non-zero argument
overrides it; an omitted `verifySignatures` defaults to `false`. -/
theorem c10_constructor_defaults :
    (∀ v, (PacketInterceptor.mk' (some 0) v).maxPackets = 5000) ∧
    (∀ m, (PacketInterceptor.mk' m none).verifySignatures = false) ∧
    (∀ v k, (PacketInterceptor.mk' (some (k + 1)) v).maxPackets = k + 1) := by
  refine ⟨fun v => rfl, fun m => ?_, fun v k => ?_⟩
  · cases m <;> rfl
  · simp [PacketInterceptor.mk']

/-- C2 counterexample: `encode` writes `body.length` into the wire
`bodyLength` field, ignoring `header.bodyLength`. Encoding the header `c2h`
(declared `bodyLength = 5`) with an empty body succeeds, and decoding the
result yields `bodyLength = 0 ≠ 5`: the round trip does not reproduce all
five header fields for every header within the claim's stated hypotheses. -/
theorem c2_counterexample :
    ((LOCOPacketCodec.encode c2h [] false).bind
        (fun buf => LOCOPacketCodec.decode buf false)).map
      (fun p => p.header.bodyLength) = some 0 ∧
    c2h.bodyLength = 5 :=
  ⟨by decide, rfl⟩

/-- C3 counterexample: on `c3buf` the claim's failure condition holds (length
and bodyLength are fine, but the method after stripping only trailing NULs
fails the charset check), so the claim's "exactly when" requires
`decode = null` — yet `decode` succeeds, because the source removes interior
NULs as well. -/
theorem c3_counterexample :
    (LOCOPacketCodec.decode c3buf false).isSome = true ∧
    22 ≤ c3buf.length ∧
    readUInt32LE c3buf 18 ≤ LOCOPacketCodec.MAX_BODY_SIZE ∧
    methodBytesOK (stripTrailingNulls ((c3buf.drop 6).take 11)) = false :=
  ⟨by decide, by decide, by decide, by decide⟩

/-- C5 counterexample: an empty buffer is rejected by `intercept` before
storage, so after `maxPackets + k` intercept calls (here `1 + 1` calls with
`maxPackets = 1`) the history can hold FEWER than `maxPackets` entries — here
none at all — contradicting "exactly the maxPackets most-recent entries
remain". -/
theorem c5_counterexample :
    ((PacketInterceptor.mk' (some 1) none).runAll
      [([], Direction.send), ([], Direction.send)]).packets.length = 0 := by
  decide

/-- C6 counterexample: `getStats` recomputes `totalBytes` (and the
per-direction/method/status counts) from the RETAINED history only. With
`maxPackets = 1`, intercepting a 30-byte buffer reports `totalBytes = 30`;
intercepting a 1-byte buffer next evicts the 30-byte entry and the report
drops to `totalBytes = 1` — a reported statistic decreases across an
intercept call without any `clear()`. -/
theorem c6_counterexample :
    ((PacketInterceptor.mk' (some 1) none).runAll
      [(List.replicate 30 65, Direction.send)]).getStats.totalBytes = 30 ∧
    ((PacketInterceptor.mk' (some 1) none).runAll
      [(List.replicate 30 65, Direction.send), ([65], Direction.send)]).getStats.totalBytes = 1 :=
  ⟨by decide, by decide⟩

/-- C7 counterexample: `intercept` on an empty buffer returns after bumping
the error count, emitting NO events at all — not the "exactly one packet
event per call" the claim states. -/
theorem c7_counterexample :
    (((PacketInterceptor.mk' none none).intercept [] Direction.send).2.filter
      (fun e => e.1 == "packet")).length = 0 := by
  decide

/-- C8: CONFIRMED. `trigger` equals the single left-to-right chain over the
global hooks followed by the hooks registered for the packet's method (each
list in registration order), threading the current packet; and the chain
semantics treats a raising callback and a void-returning callback, inserted
at any position, as a skip (the pipeline continues with the last good
packet), while a replacing callback receives the current packet and the chain
continues from the replacement. `trigger` is a total function: no callback
fault escapes it. -/
theorem c8_trigger_chain :
    (∀ (hm : ProtocolHookManager) (packet : LOCOPacket) (direction : Direction),
        hm.trigger packet direction =
          runChain direction
            (hm.globalHooks ++ (lookupHooks hm.hooks packet.header.method).getD []) packet) ∧
    (∀ (direction : Direction) (pre post : List HookCallback) (packet : LOCOPacket),
        runChain direction (pre ++ (fun _ _ => HookResult.raised) :: post) packet =
          runChain direction (pre ++ post) packet) ∧
    (∀ (direction : Direction) (pre post : List HookCallback) (packet : LOCOPacket),
        runChain direction (pre ++ (fun _ _ => HookResult.voidReturn) :: post) packet =
          runChain direction (pre ++ post) packet) ∧
    (∀ (direction : Direction) (f : LOCOPacket → LOCOPacket) (pre post : List HookCallback)
        (packet : LOCOPacket),
        runChain direction (pre ++ (fun q _ => HookResult.replace (f q)) :: post) packet =
          runChain direction post (f (runChain direction pre packet))) := by
  refine ⟨?_, ?_, ?_, ?_⟩
  · intro hm packet direction
    unfold ProtocolHookManager.trigger runChain
    cases h : lookupHooks hm.hooks packet.header.method <;> simp [List.foldl_append]
  · intro direction pre post packet
    simp [runChain, List.foldl_append, applyHook]
  · intro direction pre post packet
    simp [runChain, List.foldl_append, applyHook]
  · intro direction f pre post packet
    simp [runChain, List.foldl_append, applyHook]

/-- The `forEach` body of `getStats` never touches the `errors` field. -/
lemma statsStep_errors (acc : PacketStatistics) (p : InterceptedPacket) :
    (statsStep acc p).errors = acc.errors := by
  unfold statsStep
  cases p.parsed <;> rfl

/-- The `forEach` body of `getStats` never touches the `tamperedPackets` field. -/
lemma statsStep_tampered (acc : PacketStatistics) (p : InterceptedPacket) :
    (statsStep acc p).tamperedPackets = acc.tamperedPackets := by
  unfold statsStep
  cases p.parsed <;> rfl

lemma statsFold_errors (l : List InterceptedPacket) (acc : PacketStatistics) :
    (l.foldl statsStep acc).errors = acc.errors := by
  induction l generalizing acc with
  | nil => rfl
  | cons p rest ih => rw [List.foldl_cons, ih, statsStep_errors]

lemma statsFold_tampered (l : List InterceptedPacket) (acc : PacketStatistics) :
    (l.foldl statsStep acc).tamperedPackets = acc.tamperedPackets := by
  induction l generalizing acc with
  | nil => rfl
  | cons p rest ih => rw [List.foldl_cons, ih, statsStep_tampered]

/-- `getStats` reports the persistent decode-error counter verbatim. -/
lemma getStats_errors (st : PacketInterceptor) : st.getStats.errors = st.errorCount := by
  unfold PacketInterceptor.getStats
  simp [statsFold_errors]

/-- `getStats` reports the persistent tamper counter verbatim. -/
lemma getStats_tampered (st : PacketInterceptor) :
    st.getStats.tamperedPackets = st.tamperedCount := by
  unfold PacketInterceptor.getStats
  simp [statsFold_tampered]

/-- C6 (amended): the decode-error count and the tamper count reported by
`getStats` are non-decreasing across every `intercept` call, and only
`clear()` resets them to zero. (The remaining statistics — total, direction,
method and status counts, and `totalBytes` — are recomputed from the retained
history and DO decrease when eviction drops an entry, see the
counterexample.) -/
theorem c6_persistent_counters_monotone :
    ∀ (st : PacketInterceptor) (buffer : List Nat) (direction : Direction),
      st.getStats.errors ≤ ((st.intercept buffer direction).1).getStats.errors ∧
      st.getStats.tamperedPackets ≤
        ((st.intercept buffer direction).1).getStats.tamperedPackets ∧
      st.clear.getStats.errors = 0 ∧ st.clear.getStats.tamperedPackets = 0 := by
  intro st buffer direction
  refine ⟨?_, ?_, ?_, ?_⟩
  · rw [getStats_errors, getStats_errors]
    by_cases hb : buffer.length = 0
    · simp [PacketInterceptor.intercept, hb]
    · simp only [PacketInterceptor.intercept, hb, if_false]
      split <;> simp
  · rw [getStats_tampered, getStats_tampered]
    by_cases hb : buffer.length = 0
    · simp [PacketInterceptor.intercept, hb]
    · simp only [PacketInterceptor.intercept, hb, if_false]
      split <;> simp
  · rw [getStats_errors]; rfl
  · rw [getStats_tampered]; rfl

/-- C7 (amended): every `intercept` call on a NON-EMPTY buffer emits exactly
one `packet` event carrying the intercepted buffer, followed by a second
event named by the resolved method exactly when decoding succeeded; and
`intercept` is a total function, so it never throws to the caller. (An empty
buffer is rejected up front and emits nothing, see the counterexample.) -/
theorem c7_packet_event_per_nonempty_intercept (st : PacketInterceptor) (buffer : List Nat)
    (direction : Direction) (hne : buffer ≠ []) :
    ∃ pkt : InterceptedPacket, pkt.raw = buffer ∧
      pkt.parsed = LOCOPacketCodec.decode buffer st.verifySignatures ∧
      (st.intercept buffer direction).2 =
        ("packet", pkt) ::
          (match pkt.parsed with
           | some p => [(p.header.method, pkt)]
           | none => []) := by
  refine ⟨interceptPacket st.verifySignatures buffer direction, rfl, rfl, ?_⟩
  have hb : ¬ buffer.length = 0 := by simpa using hne
  simp [PacketInterceptor.intercept, hb]

/-- C3 (amended): `decode` returns `none` — and, being a total function,
never throws — exactly when the buffer is shorter than 22 bytes, or the
declared `bodyLength` exceeds 15 MiB, or the method bytes after stripping ALL
NUL bytes (the source strips every NUL, not only trailing ones) fail the
`[A-Z_]+` charset check; and whenever the interceptor processes a buffer
whose decode fails this way, the decode-error count increases by exactly one
(an empty buffer is counted by the up-front guard, every other failing buffer
by the decode-failure branch). -/
theorem c3_decode_failure_conditions :
    ∀ (buffer : List Nat) (vs : Bool) (st : PacketInterceptor) (direction : Direction),
      (LOCOPacketCodec.decode buffer vs = none ↔
        buffer.length < 22 ∨ LOCOPacketCodec.MAX_BODY_SIZE < readUInt32LE buffer 18 ∨
          methodBytesOK (methodBytes buffer) = false) ∧
      (LOCOPacketCodec.decode buffer st.verifySignatures = none →
        ((st.intercept buffer direction).1).errorCount = st.errorCount + 1) := by
  intro buffer vs st direction
  constructor
  · simp only [LOCOPacketCodec.decode, LOCO_PROTOCOL.HEADER_SIZE, LOCOPacketCodec.MIN_BODY_SIZE]
    split_ifs with h1 h2 h3
    · simp [h1]
    · simp only [true_iff, eq_self_iff_true]
      rcases h2 with h | h
      · omega
      · simp [Or.inr (Or.inl h)]
    · simp only [Bool.not_eq_true'] at h3
      simp [Or.inr (Or.inr h3)]
    · simp only [Bool.not_eq_true'] at h3
      constructor
      · intro habs
        exact absurd habs (by simp)
      · intro hdis
        rcases hdis with h | h | h
        · exact absurd h h1
        · exact absurd (Or.inr h) h2
        · exact absurd h h3
  · intro hdec
    by_cases hb : buffer.length = 0
    · simp [PacketInterceptor.intercept, hb]
    · have hp : (interceptPacket st.verifySignatures buffer direction).parsed = none := hdec
      simp [PacketInterceptor.intercept, hb, hp]

/-- Witness for C3 (amended) at the concrete undersized buffer `[]`:
the failure condition holds, decode returns `none`, and intercepting it takes
the error count of a fresh interceptor from 0 to 1. -/
theorem c3_witness :
    LOCOPacketCodec.decode [] false = none ∧
    ((PacketInterceptor.mk' none none).intercept [] Direction.send).1.errorCount = 1 := by
  have h := c3_decode_failure_conditions [] false (PacketInterceptor.mk' none none) Direction.send
  exact ⟨h.1.mpr (Or.inl (by decide)), by simpa using h.2 (by decide)⟩

/-- C4: CONFIRMED. For a buffer of at least 22 bytes that passes the
body-length and method checks, when the declared `bodyLength` exceeds the
bytes available after the header, `decode` succeeds with the body truncated
to exactly the available bytes — the suffix of the buffer after the header,
never reading past the buffer end — and, being total, never throws. -/
theorem c4_truncated_body (buffer : List Nat) (vs : Bool)
    (h22 : 22 ≤ buffer.length)
    (hbl : readUInt32LE buffer 18 ≤ LOCOPacketCodec.MAX_BODY_SIZE)
    (hm : methodBytesOK (methodBytes buffer) = true)
    (hover : buffer.length - 22 < readUInt32LE buffer 18) :
    ∃ p, LOCOPacketCodec.decode buffer vs = some p ∧
      p.body = buffer.drop 22 ∧ p.body.length = buffer.length - 22 := by
  have hslice : BinaryUtils.safeSlice buffer 22 (some (22 + readUInt32LE buffer 18)) =
      buffer.drop 22 := by
    unfold BinaryUtils.safeSlice
    have h1 : min (22 + readUInt32LE buffer 18) buffer.length = buffer.length := by omega
    have h2 : min 22 buffer.length = 22 := by omega
    simp only [h1, h2, List.take_length]
  simp only [LOCOPacketCodec.decode, LOCO_PROTOCOL.HEADER_SIZE, LOCOPacketCodec.MIN_BODY_SIZE]
  rw [if_neg (by omega), if_neg (by omega), if_neg (by simp [hm])]
  refine ⟨_, rfl, ?_, ?_⟩
  · exact hslice
  · show (BinaryUtils.safeSlice buffer 22 (some (22 + readUInt32LE buffer 18))).length = _
    rw [hslice, List.length_drop]

/-- Witness for C4 at `c4buf`: decode succeeds and the body is the single
available byte. -/
theorem c4_witness :
    22 ≤ c4buf.length ∧
    ∃ p, LOCOPacketCodec.decode c4buf false = some p ∧
      p.body = c4buf.drop 22 ∧ p.body.length = c4buf.length - 22 :=
  ⟨by decide, c4_truncated_body c4buf false (by decide) (by decide) (by decide) (by decide)⟩

/-- After a push capped by a shift, the just-pushed entry is still the most
recent one (requires a positive cap: with cap 0 the pushed entry itself is
immediately evicted). -/
lemma getLast?_capped (max : Nat) (l : List InterceptedPacket) (e : InterceptedPacket)
    (hmax : 1 ≤ max) :
    (if max < (l ++ [e]).length then (l ++ [e]).tail else (l ++ [e])).getLast? = some e := by
  split
  case isTrue h =>
    cases l with
    | nil => simp at h; omega
    | cons x t => simp [List.getLast?_concat]
  case isFalse h => exact List.getLast?_concat _

/-- C9: CONFIRMED. When verification is enabled and the decoded packet's
attached signature fails `verifyPacketSignature`, `intercept` increments the
tamper counter, marks the entry `verified = false`, but still stores it as
the most recent history entry and still emits both the `packet` event and
the method-named event carrying it — the packet is never discarded. -/
theorem c9_verification_failure_kept (st : PacketInterceptor) (buffer : List Nat)
    (direction : Direction) (p : LOCOPacket) (s : String)
    (hvs : st.verifySignatures = true)
    (hmax : 1 ≤ st.maxPackets)
    (hdec : LOCOPacketCodec.decode buffer true = some p)
    (hsig : p.signature = some s)
    (hfail : LOCOPacketCodec.verifyPacketSignature p s = false) :
    ((st.intercept buffer direction).1).tamperedCount = st.tamperedCount + 1 ∧
    ((st.intercept buffer direction).1).packets.getLast? =
      some { direction := direction, raw := buffer, parsed := some p, verified := false } ∧
    (st.intercept buffer direction).2 =
      [("packet", { direction := direction, raw := buffer, parsed := some p, verified := false }),
       (p.header.method,
        { direction := direction, raw := buffer, parsed := some p, verified := false })] := by
  have hb : ¬ buffer.length = 0 := by
    intro h
    have : LOCOPacketCodec.decode buffer true = none := by
      simp [LOCOPacketCodec.decode, LOCO_PROTOCOL.HEADER_SIZE, h]
    rw [hdec] at this
    cases this
  have hpkt : interceptPacket st.verifySignatures buffer direction =
      { direction := direction, raw := buffer, parsed := some p, verified := false } := by
    simp [interceptPacket, hvs, hdec, hsig, hfail]
  refine ⟨?_, ?_, ?_⟩
  · simp [PacketInterceptor.intercept, hb, hpkt]
  · simp only [PacketInterceptor.intercept, hb, if_false, hpkt]
    exact getLast?_capped st.maxPackets st.packets _ hmax
  · simp [PacketInterceptor.intercept, hb, hpkt]

lemma read32_write32 (v : Nat) (rest : List Nat) (hv : v < 4294967296) :
    readUInt32LE (writeUInt32LE v ++ rest) 0 = v := by
  show v % 256 + 256 * (v / 256 % 256) + 65536 * (v / 65536 % 256) +
    16777216 * (v / 16777216 % 256) = v
  omega

lemma read16_write16 (v : Int) (rest : List Nat) (h1 : -32768 ≤ v) (h2 : v < 32768) :
    readInt16LE (writeInt16LE v ++ rest) 0 = v := by
  show (if ((v % 65536).toNat % 256 + 256 * ((v % 65536).toNat / 256 % 256) : Nat) < 32768
    then (((v % 65536).toNat % 256 + 256 * ((v % 65536).toNat / 256 % 256) : Nat) : Int)
    else (((v % 65536).toNat % 256 + 256 * ((v % 65536).toNat / 256 % 256) : Nat) : Int) - 65536) =
      v
  have hnn : 0 ≤ v % 65536 := Int.emod_nonneg v (by norm_num)
  have hlt : v % 65536 < 65536 := Int.emod_lt_of_pos v (by norm_num)
  set u : Nat := (v % 65536).toNat with hu
  have hu65536 : u < 65536 := by omega
  have hsum : (u % 256 + 256 * (u / 256 % 256) : Nat) = u := by omega
  rw [hsum]
  split
  · rename_i hlt2
    omega
  · rename_i hge2
    omega

lemma read32_shift (b : List Nat) (off : Nat) :
    readUInt32LE b off = readUInt32LE (b.drop off) 0 := by
  unfold readUInt32LE
  simp [List.getD_eq_getElem?_getD, List.getElem?_drop]

lemma read16_shift (b : List Nat) (off : Nat) :
    readInt16LE b off = readInt16LE (b.drop off) 0 := by
  unfold readInt16LE
  simp [List.getD_eq_getElem?_getD, List.getElem?_drop]

lemma read8_shift (b : List Nat) (off : Nat) :
    readUInt8 b off = readUInt8 (b.drop off) 0 := by
  unfold readUInt8
  simp [List.getD_eq_getElem?_getD, List.getElem?_drop]

lemma length_methodFieldBytes (m : String) : (methodFieldBytes m).length = 11 := by
  unfold methodFieldBytes
  have h : ((m.toList.map Char.toNat).take 11).length ≤ 11 := by
    simp [List.length_take]
  simp only [List.length_append, List.length_replicate]
  omega

lemma methodByte_ne_zero (b : Nat) (h : isMethodByte b = true) : (b != 0) = true := by
  simp only [isMethodByte, Bool.or_eq_true, Bool.and_eq_true, decide_eq_true_eq,
    beq_iff_eq] at h
  simp only [bne_iff_ne, ne_eq]
  omega

lemma filter_ne0_replicate0 (k : Nat) :
    (List.replicate k 0).filter (fun b => b != 0) = [] := by
  induction k with
  | zero => rfl
  | succ n ih => simp [List.replicate_succ, ih]

/-- For a valid method of at most 11 characters, the NUL-stripped method
field written by `encode` is exactly the method's character codes. -/
lemma methodFieldBytes_filter (m : String) (hv : methodStringValid m = true)
    (hl : m.toList.length ≤ 11) :
    (methodFieldBytes m).filter (fun b => b != 0) = m.toList.map Char.toNat := by
  unfold methodStringValid at hv
  simp only [Bool.and_eq_true] at hv
  have htake : (m.toList.map Char.toNat).take 11 = m.toList.map Char.toNat :=
    List.take_of_length_le (by simpa using hl)
  unfold methodFieldBytes
  rw [htake, List.filter_append, filter_ne0_replicate0, List.append_nil]
  rw [List.filter_eq_self]
  intro a ha
  obtain ⟨c, hc, rfl⟩ := List.mem_map.mp ha
  exact methodByte_ne_zero _ (by simpa [isMethodChar] using List.all_eq_true.mp hv.2 c hc)

lemma string_mk_map_ofNat_toNat (m : String) :
    String.mk ((m.toList.map Char.toNat).map Char.ofNat) = m := by
  rw [List.map_map]
  have h : (Char.ofNat ∘ Char.toNat) = id := funext Char.ofNat_toNat
  rw [h, List.map_id]
  rfl

/-- C2 (amended): the round trip reproduces the header and the body exactly,
provided (as the wire format forces) the numeric header fields are within
their ranges (`packetId < 2^32`, `statusCode` a signed 16-bit value,
`type < 2^8` — the checked buffer writes throw otherwise) AND the declared
`header.bodyLength` equals `body.length` — `encode` writes `body.length` into
the wire, so a disagreeing `bodyLength` is not reproduced (see the
counterexample). -/
theorem c2_roundtrip (h : LOCOPacketHeader) (body : List Nat)
    (hmv : methodStringValid h.method = true)
    (hml : h.method.toList.length ≤ 11)
    (hbody : body.length ≤ LOCOPacketCodec.MAX_BODY_SIZE)
    (hpid : h.packetId < 4294967296)
    (hsc1 : -32768 ≤ h.statusCode) (hsc2 : h.statusCode < 32768)
    (hty : h.type < 256)
    (hbl : h.bodyLength = body.length) :
    ∃ buf, LOCOPacketCodec.encode h body false = some buf ∧
      LOCOPacketCodec.decode buf false =
        some { header := h, body := body, signature := none } := by
  have hMAX : LOCOPacketCodec.MAX_BODY_SIZE = 15728640 := rfl
  have hmflen : (methodFieldBytes h.method).length = 11 := length_methodFieldBytes h.method
  have hc3 : ¬(4294967296 ≤ h.packetId ∨ h.statusCode < -32768 ∨
      32768 ≤ h.statusCode ∨ 256 ≤ h.type) := by
    push_neg
    exact ⟨by omega, by omega, by omega, by omega⟩
  refine ⟨writeUInt32LE h.packetId ++ (writeInt16LE h.statusCode ++ (methodFieldBytes h.method ++
    (h.type :: (writeUInt32LE body.length ++ body)))), ?_, ?_⟩
  · unfold LOCOPacketCodec.encode
    rw [if_neg (by omega), if_neg (by simp [hmv]), if_neg hc3]
  · set E := writeUInt32LE h.packetId ++ (writeInt16LE h.statusCode ++ (methodFieldBytes h.method ++
      (h.type :: (writeUInt32LE body.length ++ body)))) with hE
    have hw32len : ∀ v : Nat, (writeUInt32LE v).length = 4 := fun v => rfl
    have hw16len : (writeInt16LE h.statusCode).length = 2 := rfl
    have hEL : E.length = 22 + body.length := by
      rw [hE]
      simp only [List.length_append, List.length_cons, hw32len, hw16len, hmflen]
      omega
    have r0 : readUInt32LE E 0 = h.packetId := read32_write32 h.packetId _ hpid
    have r4 : readInt16LE E 4 = h.statusCode := by
      rw [read16_shift, hE, List.drop_left' (hw32len h.packetId)]
      exact read16_write16 h.statusCode _ hsc1 hsc2
    have hEform17 : E = (writeUInt32LE h.packetId ++ (writeInt16LE h.statusCode ++
        methodFieldBytes h.method)) ++ (h.type :: (writeUInt32LE body.length ++ body)) := by
      rw [hE]; simp [List.append_assoc]
    have h17len : (writeUInt32LE h.packetId ++ (writeInt16LE h.statusCode ++
        methodFieldBytes h.method)).length = 17 := by
      simp only [List.length_append, hw32len, hw16len, hmflen]
    have r17 : readUInt8 E 17 = h.type := by
      rw [read8_shift, hEform17, List.drop_left' h17len]
      rfl
    have hEform18 : E = (writeUInt32LE h.packetId ++ (writeInt16LE h.statusCode ++
        (methodFieldBytes h.method ++ [h.type]))) ++ (writeUInt32LE body.length ++ body) := by
      rw [hE]; simp [List.append_assoc]
    have h18len : (writeUInt32LE h.packetId ++ (writeInt16LE h.statusCode ++
        (methodFieldBytes h.method ++ [h.type]))).length = 18 := by
      simp only [List.length_append, List.length_cons, List.length_nil, hw32len, hw16len, hmflen]
    have r18 : readUInt32LE E 18 = body.length := by
      rw [read32_shift, hEform18, List.drop_left' h18len]
      exact read32_write32 _ _ (by omega)
    have hEform6 : E = (writeUInt32LE h.packetId ++ writeInt16LE h.statusCode) ++
        (methodFieldBytes h.method ++ (h.type :: (writeUInt32LE body.length ++ body))) := by
      rw [hE]; simp [List.append_assoc]
    have h6len : (writeUInt32LE h.packetId ++ writeInt16LE h.statusCode).length = 6 := by
      simp only [List.length_append, hw32len, hw16len]
    have hmB : methodBytes E = h.method.toList.map Char.toNat := by
      unfold methodBytes
      rw [hEform6, List.drop_left' h6len, List.take_left' hmflen]
      exact methodFieldBytes_filter h.method hmv hml
    have hOK : methodBytesOK (h.method.toList.map Char.toNat) = true := by
      unfold methodStringValid at hmv
      simp only [Bool.and_eq_true] at hmv
      unfold methodBytesOK
      simp only [Bool.and_eq_true, List.all_map]
      constructor
      · simpa using hmv.1
      · simpa [isMethodChar, Function.comp] using hmv.2
    have hEform22 : E = (writeUInt32LE h.packetId ++ (writeInt16LE h.statusCode ++
        (methodFieldBytes h.method ++ (h.type :: writeUInt32LE body.length)))) ++ body := by
      rw [hE]; simp [List.append_assoc]
    have h22len : (writeUInt32LE h.packetId ++ (writeInt16LE h.statusCode ++
        (methodFieldBytes h.method ++ (h.type :: writeUInt32LE body.length)))).length = 22 := by
      simp only [List.length_append, List.length_cons, hw32len, hw16len, hmflen]
    have hdrop22 : E.drop 22 = body := by
      rw [hEform22]
      exact List.drop_left' h22len
    have hslice : BinaryUtils.safeSlice E 22 (some (22 + body.length)) = body := by
      unfold BinaryUtils.safeSlice
      have h1 : min (22 + body.length) E.length = E.length := by omega
      have h2 : min 22 E.length = 22 := by omega
      simp only [h1, h2, List.take_length]
      exact hdrop22
    simp only [LOCOPacketCodec.decode, LOCO_PROTOCOL.HEADER_SIZE, LOCOPacketCodec.MIN_BODY_SIZE]
    rw [if_neg (by omega), r18, hmB]
    rw [if_neg (by omega), if_neg (by simp only [hOK]; decide)]
    rw [r0, r4, r17, hslice, string_mk_map_ofNat_toNat, ← hbl]
    rfl

/-- Witness for C2 (amended) at a concrete header and two-byte body. -/
theorem c2_witness :
    ∃ buf,
      LOCOPacketCodec.encode
        { packetId := 1, statusCode := 0, method := "MSG", type := 0, bodyLength := 2 }
        [9, 9] false = some buf ∧
      LOCOPacketCodec.decode buf false =
        some { header := { packetId := 1, statusCode := 0, method := "MSG", type := 0,
                           bodyLength := 2 },
               body := [9, 9], signature := none } :=
  c2_roundtrip _ [9, 9] (by decide) (by decide) (by decide) (by decide) (by decide)
    (by decide) (by decide) (by decide)

lemma lastN_of_le {α : Type} (n : Nat) (l : List α) (h : l.length ≤ n) : lastN n l = l := by
  unfold lastN
  rw [Nat.sub_eq_zero_of_le h, List.drop_zero]

lemma lastN_length_le {α : Type} (n : Nat) (l : List α) : (lastN n l).length ≤ n := by
  unfold lastN
  rw [List.length_drop]
  omega

/-- The push-then-shift history update equals keeping the last `maxPackets`
entries, provided the history was within the cap beforehand. -/
lemma capped_push_eq_lastN (max : Nat) (l : List InterceptedPacket) (e : InterceptedPacket)
    (h : l.length ≤ max) :
    (if max < (l ++ [e]).length then (l ++ [e]).tail else (l ++ [e])) = lastN max (l ++ [e]) := by
  split
  case isTrue hlt =>
    unfold lastN
    have hlen : (l ++ [e]).length - max = 1 := by
      simp only [List.length_append, List.length_cons, List.length_nil] at hlt ⊢
      omega
    rw [hlen]
    exact (List.drop_one _).symm
  case isFalse hge =>
    have hle : (l ++ [e]).length ≤ max := by omega
    rw [lastN_of_le _ _ hle]

lemma lastN_append_left_len {α : Type} (n : Nat) (C B : List α) (h : C.length = n) :
    lastN n (C ++ B) = (C ++ B).drop B.length := by
  unfold lastN
  congr 1
  rw [List.length_append, h]
  omega

lemma lastN_append_of_le {α : Type} (n : Nat) (A B : List α) (h : n ≤ A.length) :
    lastN n (A ++ B) = (A.drop (A.length - n) ++ B).drop B.length := by
  unfold lastN
  rw [List.length_append]
  have e2 : A.length + B.length - n = (A.length - n) + B.length := by omega
  rw [e2, ← List.drop_drop, List.drop_append_of_le_length (by omega)]

/-- Re-capping after an already-capped prefix loses nothing: the last `n` of
(last `n` of `A`, then `B`) are the last `n` of (`A`, then `B`). -/
lemma lastN_append_lastN {α : Type} (n : Nat) (A B : List α) :
    lastN n (lastN n A ++ B) = lastN n (A ++ B) := by
  by_cases h : A.length ≤ n
  · rw [lastN_of_le n A h]
  · push_neg at h
    have hC : (lastN n A).length = n := by
      unfold lastN
      rw [List.length_drop]
      omega
    rw [lastN_append_left_len n (lastN n A) B hC, lastN_append_of_le n A B (le_of_lt h)]
    rfl

/-- `intercept` never changes the cap or the verification flag. -/
lemma intercept_fields (st : PacketInterceptor) (b : List Nat) (d : Direction) :
    ((st.intercept b d).1).maxPackets = st.maxPackets ∧
    ((st.intercept b d).1).verifySignatures = st.verifySignatures := by
  unfold PacketInterceptor.intercept
  split <;> exact ⟨rfl, rfl⟩

/-- On a non-empty buffer the history update is exactly push-then-shift. -/
lemma intercept_packets_nonempty (st : PacketInterceptor) (b : List Nat) (d : Direction)
    (hb : b ≠ []) :
    ((st.intercept b d).1).packets =
      (if st.maxPackets < (st.packets ++ [interceptPacket st.verifySignatures b d]).length
       then (st.packets ++ [interceptPacket st.verifySignatures b d]).tail
       else (st.packets ++ [interceptPacket st.verifySignatures b d])) := by
  have hb' : ¬ b.length = 0 := by simpa using hb
  simp [PacketInterceptor.intercept, hb']

/-- One `intercept` call preserves the cap invariant on the history length. -/
lemma intercept_packets_len (st : PacketInterceptor) (b : List Nat) (d : Direction)
    (h : st.packets.length ≤ st.maxPackets) :
    ((st.intercept b d).1).packets.length ≤ st.maxPackets := by
  by_cases hb : b.length = 0
  · simpa [PacketInterceptor.intercept, hb] using h
  · simp only [PacketInterceptor.intercept, hb, if_false]
    split
    · simp only [List.length_tail, List.length_append, List.length_cons, List.length_nil]
      omega
    · rename_i hge
      simp only [List.length_append, List.length_cons, List.length_nil] at hge ⊢
      omega

/-- The cap invariant holds after any sequence of `intercept` calls. -/
lemma runAll_len_invariant (inputs : List (List Nat × Direction)) :
    ∀ st : PacketInterceptor, st.packets.length ≤ st.maxPackets →
      (st.runAll inputs).packets.length ≤ st.maxPackets := by
  induction inputs with
  | nil => intro st h; exact h
  | cons bd rest ih =>
      intro st h
      have hstep : st.runAll (bd :: rest) = ((st.intercept bd.1 bd.2).1).runAll rest := rfl
      have h1 := intercept_packets_len st bd.1 bd.2 h
      have h2 := (intercept_fields st bd.1 bd.2).1
      have h3 := ih ((st.intercept bd.1 bd.2).1) (by rw [h2]; exact h1)
      rw [h2] at h3
      rw [hstep]
      exact h3

/-- Characterisation of the retained history after a run of non-empty
buffers: exactly the last `maxPackets` of all entries ever pushed. -/
lemma runAll_packets_lastN (inputs : List (List Nat × Direction)) :
    ∀ st : PacketInterceptor, (∀ bd ∈ inputs, bd.1 ≠ []) →
      st.packets.length ≤ st.maxPackets →
      (st.runAll inputs).packets =
        lastN st.maxPackets
          (st.packets ++
            inputs.map (fun bd => interceptPacket st.verifySignatures bd.1 bd.2)) := by
  induction inputs with
  | nil =>
      intro st _ hlen
      have : lastN st.maxPackets (st.packets ++ []) = st.packets ++ [] :=
        lastN_of_le _ _ (by simpa using hlen)
      simpa [PacketInterceptor.runAll] using this.symm
  | cons bd rest ih =>
      intro st hne hlen
      have hbd : bd.1 ≠ [] := hne bd (List.mem_cons_self bd rest)
      have hrest : ∀ x ∈ rest, x.1 ≠ [] := fun x hx => hne x (List.mem_cons_of_mem _ hx)
      have hstep : st.runAll (bd :: rest) = ((st.intercept bd.1 bd.2).1).runAll rest := rfl
      have hfields := intercept_fields st bd.1 bd.2
      have hpk : ((st.intercept bd.1 bd.2).1).packets =
          lastN st.maxPackets
            (st.packets ++ [interceptPacket st.verifySignatures bd.1 bd.2]) := by
        rw [intercept_packets_nonempty st bd.1 bd.2 hbd]
        exact capped_push_eq_lastN _ _ _ hlen
      have hlen' : ((st.intercept bd.1 bd.2).1).packets.length ≤
          ((st.intercept bd.1 bd.2).1).maxPackets := by
        rw [hpk, hfields.1]
        exact lastN_length_le _ _
      have hih := ih ((st.intercept bd.1 bd.2).1) hrest hlen'
      rw [hstep, hih, hfields.1, hfields.2, hpk, lastN_append_lastN]
      rw [List.map_cons, List.append_assoc, List.singleton_append]

/-- C5 (amended): starting from any freshly constructed interceptor, (a) the
retained history never exceeds `maxPackets` entries after ANY sequence of
intercept calls, and (b) after intercepting `maxPackets + k` NON-EMPTY
buffers, exactly the `maxPackets` most-recent entries remain, the oldest `k`
having been evicted first (strict FIFO). (Empty buffers are rejected before
storage, see the counterexample, which is why (b) requires them non-empty.) -/
theorem c5_bounded_fifo_history (mopt : Option Nat) (vopt : Option Bool) :
    (∀ inputs : List (List Nat × Direction),
        ((PacketInterceptor.mk' mopt vopt).runAll inputs).packets.length ≤
          (PacketInterceptor.mk' mopt vopt).maxPackets) ∧
    (∀ (inputs : List (List Nat × Direction)) (k : Nat),
        (∀ bd ∈ inputs, bd.1 ≠ []) →
        inputs.length = (PacketInterceptor.mk' mopt vopt).maxPackets + k →
        ((PacketInterceptor.mk' mopt vopt).runAll inputs).packets =
          (inputs.map (fun bd =>
            interceptPacket (PacketInterceptor.mk' mopt vopt).verifySignatures bd.1 bd.2)).drop k) := by
  constructor
  · intro inputs
    exact runAll_len_invariant inputs (PacketInterceptor.mk' mopt vopt) (by simp [PacketInterceptor.mk'])
  · intro inputs k hne hk
    have h := runAll_packets_lastN inputs (PacketInterceptor.mk' mopt vopt) hne
      (by simp [PacketInterceptor.mk'])
    have hmtpk : (PacketInterceptor.mk' mopt vopt).packets = [] := rfl
    rw [h, hmtpk, List.nil_append]
    unfold lastN
    congr 1
    rw [List.length_map, hk]
    omega

/-- Witness for C5 (amended): cap 2, three non-empty one-byte buffers; the
first entry is evicted, the last two remain in arrival order. -/
theorem c5_witness :
    ((PacketInterceptor.mk' (some 2) none).runAll
      [([1], Direction.send), ([2], Direction.send), ([3], Direction.send)]).packets =
      [interceptPacket false [2] Direction.send, interceptPacket false [3] Direction.send] := by
  have h := (c5_bounded_fifo_history (some 2) none).2
    [([1], Direction.send), ([2], Direction.send), ([3], Direction.send)] 1
    (by decide) (by decide)
  rw [h]
  decide

/-- Witness for C9 at the concrete signed frame `c1buf` (whose verification
fails, per the C1 finding): fresh interceptor with verification on, tamper
count goes 0 to 1. -/
theorem c9_witness :
    (((PacketInterceptor.mk' (some 10) (some true)).intercept c1buf Direction.send).1).tamperedCount = 1 := by
  have h := c9_verification_failure_kept (PacketInterceptor.mk' (some 10) (some true)) c1buf
    Direction.send c1packet c1sig (by decide) (by decide) (by decide) (by decide) (by decide)
  simpa using h.1

/-- Witness for C7 (amended) at the concrete non-empty buffer `[0]` (decode
fails on it, so only the `packet` event fires). -/
theorem c7_witness :
    ([0] : List Nat) ≠ [] ∧
    ∃ pkt : InterceptedPacket, pkt.raw = [0] ∧
      pkt.parsed = LOCOPacketCodec.decode [0] (PacketInterceptor.mk' none none).verifySignatures ∧
      ((PacketInterceptor.mk' none none).intercept [0] Direction.send).2 =
        ("packet", pkt) ::
          (match pkt.parsed with
           | some p => [(p.header.method, pkt)]
           | none => []) :=
  ⟨by decide,
   c7_packet_event_per_nonempty_intercept (PacketInterceptor.mk' none none) [0]
     Direction.send (by decide)⟩
